import Mathlib

/-!
Verification of the DHT11 single-wire sensor driver (`src/main.ts`,
namespace `kodely`) against its natural-language specification.

The environment (the sensor side of the wire) is modelled as the sequence
of levels that successive `pins.digitalReadPin` calls observe:
`sig : ℕ → Bool`, where `sig k` is the level returned by the k-th read of
the run (`true` = high).  Busy-wait loops are made total with an explicit
fuel bound; exhausting the fuel models non-termination (`none`).

Every pin operation the driver performs is recorded in a log so that
trace-level claims (which pin operations run, which bits are sampled) can
be stated.  `serial.writeLine` diagnostics in `relativeHumidity` are not
pin operations and are not logged.

Numbers in MakeCode Static TypeScript are IEEE doubles; all values that
the driver manipulates here (sums of powers of two with exponents in
[-24, 7], and the small decimal conversions) are exactly representable,
so ℚ is used as the number type.  JavaScript `x & 255` applies ToInt32
(truncation toward zero, wrap-around modulo 2^32 into [-2^31, 2^31)) to
`x` and masks the low 8 bits, which for the masked value equals the
Euclidean remainder modulo 256.
-/

/-- The `TemperatureScale` enum of the source (Celsius = 0, Fahrenheit = 1,
Kelvin = 2). -/
inductive TemperatureScale where
  | Celsius
  | Fahrenheit
  | Kelvin
deriving DecidableEq, Repr

/-- One pin operation performed by the driver.  `readPin k v` is the k-th
`digitalRead` of the run, which observed level `v`. -/
inductive PinOp where
  | writeLow
  | pauseMs (n : ℕ)
  | setPullUp
  | readPin (k : ℕ) (v : Bool)
  | waitUs (n : ℕ)
deriving DecidableEq, Repr

/-- Result of one driver invocation: the log of pin operations, the list of
sampled data bits (empty when the read aborts before sampling), and the
numeric return value. -/
structure Run where
  log : List PinOp
  bits : List Bool
  ret : ℚ
deriving DecidableEq, Repr

/-- The JavaScript value `2 ** w` for an integer exponent `w` (exact in ℚ;
all exponents arising in the driver are in [-24, 7], well inside double
precision). -/
def pow2 (w : ℤ) : ℚ :=
  if 0 ≤ w then ((2 ^ w.toNat : ℕ) : ℚ) else ((2 ^ (-w).toNat : ℕ) : ℚ)⁻¹

/-- One field-packing loop of the source,
`for (let i = 0; i < n; i++) acc += (dataBits[base + i] ? 2 ** (7 - i) : 0)`.
A JavaScript out-of-range read yields `undefined`, which is falsy, so it
contributes `0` exactly like a `false` entry: `List.getD _ _ false`. -/
def fieldLoop (b : List Bool) (base : ℕ) : ℕ → ℚ
  | 0 => 0
  | n + 1 =>
    fieldLoop b base n + (if b.getD (base + n) false then pow2 (7 - (n : ℤ)) else 0)

/-- `RHint` accumulator (line 173 / 251): `for (i < 8) RHint += dataBits[i] ? 2**(7-i) : 0`. -/
def RHint (b : List Bool) : ℚ := fieldLoop b 0 8

/-- `RHdec` accumulator (line 174 / 252): loop bound is `i < 16`, index `i + 8`. -/
def RHdec (b : List Bool) : ℚ := fieldLoop b 8 16

/-- `Tint` accumulator (line 175 / 253): loop bound is `i < 24`, index `i + 16`. -/
def Tint (b : List Bool) : ℚ := fieldLoop b 16 24

/-- `Tdec` accumulator (line 176 / 254): loop bound is `i < 32`, index `i + 24`. -/
def Tdec (b : List Bool) : ℚ := fieldLoop b 24 32

/-- `chksum` accumulator (line 177 / 255): loop bound is `i < 40`, index `i + 32`. -/
def chksum (b : List Bool) : ℚ := fieldLoop b 32 40

/-- JavaScript ToInt32: truncate toward zero, wrap modulo 2^32 into
[-2^31, 2^31). -/
def toInt32 (q : ℚ) : ℤ :=
  let t := Int.tdiv q.num (q.den : ℤ)
  let m := t % 2 ^ 32
  if m < 2 ^ 31 then m else m - 2 ^ 32

/-- JavaScript `x & 255` on a number `x` (`%` on ℤ is the Euclidean
remainder, which agrees with masking the low 8 bits of the two's-complement
representation). -/
def jsBitAnd255 (q : ℚ) : ℤ := toInt32 q % 256

/-- The checksum acceptance test of the source (line 180 / 258):
`((RHint + RHdec + Tint + Tdec) & 255) == chksum`. -/
def checksumOk (b : List Bool) : Bool :=
  decide ((jsBitAnd255 (RHint b + RHdec b + Tint b + Tdec b) : ℚ) = chksum b)

/-- The scale-selecting conversion of line 182:
`scale == 0 ? Tint + Tdec/100 : scale == 1 ? (Tint + Tdec/100)*9/5 + 32
: (Tint + Tdec/100) + 273.15`. -/
def temperatureValue (s : TemperatureScale) (b : List Bool) : ℚ :=
  match s with
  | .Celsius => Tint b + Tdec b / 100
  | .Fahrenheit => (Tint b + Tdec b / 100) * 9 / 5 + 32
  | .Kelvin => (Tint b + Tdec b / 100) + 27315 / 100

/-- The success value of `relativeHumidity` (line 259): `RHint + RHdec / 100`. -/
def humidityValue (b : List Bool) : ℚ := RHint b + RHdec b / 100

/-- The fixed operation prefix of both reads (lines 141-149 / 219-227):
drive low, pause 18 ms, switch to pull-up, one discard read (index 0),
wait 40 µs, then the acknowledge check read (index 1). -/
def startLog (sig : ℕ → Bool) : List PinOp :=
  [PinOp.writeLow, PinOp.pauseMs 18, PinOp.setPullUp,
   PinOp.readPin 0 (sig 0), PinOp.waitUs 40, PinOp.readPin 1 (sig 1)]

/-- A busy-wait loop `while (digitalRead(pin) == level);` starting at read
index `k`.  Each loop iteration consumes one read; on exit it returns the
next unconsumed read index together with the log of reads performed.
`none` means the fuel bound was exhausted (the loop is unbounded in the
source). -/
def skipWhile (sig : ℕ → Bool) (level : Bool) : ℕ → ℕ → Option (ℕ × List PinOp)
  | _, 0 => none
  | k, fuel + 1 =>
    if sig k = level then
      (skipWhile sig level (k + 1) fuel).map
        (fun r => (r.1, PinOp.readPin k (sig k) :: r.2))
    else
      some (k + 1, [PinOp.readPin k (sig k)])

/-- The bit-sampling loop (lines 159-165 / 237-243), `count` iterations. Each
iteration: busy-wait while high, busy-wait while low, wait 28 µs, then one
read that records the bit (`high` ⇒ `true`).  Returns the next read index,
the pin-operation log, and the sampled bits in reception order. -/
def collectBits (sig : ℕ → Bool) : ℕ → ℕ → ℕ → Option (ℕ × List PinOp × List Bool)
  | k, 0, _ => some (k, [], [])
  | k, c + 1, fuel =>
    (skipWhile sig true k fuel).bind fun a =>
      (skipWhile sig false a.1 fuel).bind fun bb =>
        (collectBits sig (bb.1 + 1) c fuel).map fun z =>
          (z.1,
           a.2 ++ bb.2 ++ ([PinOp.waitUs 28, PinOp.readPin bb.1 (sig bb.1)] ++ z.2.1),
           sig bb.1 :: z.2.2)

/-- `kodely.temperature` (lines 116-186).  After the start signal, if the
acknowledge-check read (index 1) is high the function returns -1 at once;
otherwise it waits out the low then high acknowledge pulse, samples 40
bits, and returns the converted value on checksum match, -999 otherwise. -/
def temperature (s : TemperatureScale) (sig : ℕ → Bool) (fuel : ℕ) : Option Run :=
  if sig 1 then some ⟨startLog sig, [], -1⟩
  else
    (skipWhile sig false 2 fuel).bind fun a =>
      (skipWhile sig true a.1 fuel).bind fun bb =>
        (collectBits sig bb.1 40 fuel).map fun z =>
          ⟨startLog sig ++ a.2 ++ bb.2 ++ z.2.1, z.2.2,
           if checksumOk z.2.2 then temperatureValue s z.2.2 else -999⟩

/-- `kodely.relativeHumidity` (lines 194-266).  Identical acquisition;
returns `RHint + RHdec / 100` on checksum match, -999 otherwise (the
serial diagnostics on the failure path are not pin operations). -/
def relativeHumidity (sig : ℕ → Bool) (fuel : ℕ) : Option Run :=
  if sig 1 then some ⟨startLog sig, [], -1⟩
  else
    (skipWhile sig false 2 fuel).bind fun a =>
      (skipWhile sig true a.1 fuel).bind fun bb =>
        (collectBits sig bb.1 40 fuel).map fun z =>
          ⟨startLog sig ++ a.2 ++ bb.2 ++ z.2.1, z.2.2,
           if checksumOk z.2.2 then humidityValue z.2.2 else -999⟩

/-- Modelled from the spec (§3 SensorFrame): the big-endian value of the
8-bit slice of the frame starting at `base`, accumulated most-significant
bit first — `specByteAux b base n` is the partial sum after `n` of the 8
bits. -/
def specByteAux (b : List Bool) (base : ℕ) : ℕ → ℕ
  | 0 => 0
  | n + 1 => specByteAux b base n + (if b.getD (base + n) false then 2 ^ (7 - n) else 0)

/-- Modelled from the spec (§3 SensorFrame): "each field is the big-endian
value of its corresponding 8-bit slice of RawBitFrame". -/
def specByte (b : List Bool) (base : ℕ) : ℕ := specByteAux b base 8

/-- The five decoded values as a tuple (the code's actual decode of a
frame). -/
def decode5 (b : List Bool) : ℚ × ℚ × ℚ × ℚ × ℚ :=
  (RHint b, RHdec b, Tint b, Tdec b, chksum b)

/-- Every index expression evaluated against `dataBits` by the five
field-packing loops (lines 173-177 / 251-255): loop bounds 8, 16, 24, 32,
40 with offsets 0, 8, 16, 24, 32. -/
def decodeAccesses : List ℕ :=
  (List.range 8).map (fun i => i) ++
  (List.range 16).map (fun i => i + 8) ++
  (List.range 24).map (fun i => i + 16) ++
  (List.range 32).map (fun i => i + 24) ++
  (List.range 40).map (fun i => i + 32)

/-- Concrete frame: all bits 0 except bit 16 (the most significant bit of
the temperature-integer slice). -/
def frame16 : List Bool := (List.replicate 40 false).set 16 true

/-- Concrete frame: all bits 0 except bits 16 and 24.  Its byte fields are
humidityInteger = 0, humidityFraction = 0, temperatureInteger = 128,
temperatureFraction = 128, checksum = 0 — and (0+0+128+128) mod 256 = 0,
so the spec's checksum invariant holds. -/
def frame1624 : List Bool := ((List.replicate 40 false).set 16 true).set 24 true

/-- Concrete frame: all bits 0 except bits 7 and 39.  Its byte fields are
humidityInteger = 1, humidityFraction = 0, temperatureInteger = 0,
temperatureFraction = 0, checksum = 1 — a spec-valid frame. -/
def frame739 : List Bool := ((List.replicate 40 false).set 7 true).set 39 true

/-- Proof-layer helper: the tail of a field-packing loop, starting at loop
counter `m` and running `n` further iterations — term `j` reads
`dataBits[base + m + j]` with weight `2 ** (7 - (m + j))`.  Used to split
the over-long loops of the source into 8-iteration chunks. -/
def tailSum (b : List Bool) (base m : ℕ) : ℕ → ℚ
  | 0 => 0
  | n + 1 =>
    tailSum b base m n +
      (if b.getD (base + m + n) false then pow2 (7 - ((m : ℤ) + n)) else 0)

/-! ### Arithmetic facts about `pow2` -/

lemma pow2_eq_zpow (w : ℤ) : pow2 w = (2 : ℚ) ^ w := by
  rcases le_or_lt 0 w with h | h
  · rw [pow2, if_pos h, ← Int.toNat_of_nonneg h, zpow_natCast]
    push_cast
    rw [Int.toNat_of_nonneg h]
  · have h2 : (2 : ℚ) ^ w = ((2 : ℚ) ^ ((-w).toNat : ℕ))⁻¹ := by
      rw [← zpow_natCast (2 : ℚ) (-w).toNat, ← zpow_neg]
      congr 1
      omega
    rw [pow2, if_neg (not_le.mpr h), h2]
    push_cast
    norm_num

lemma pow2_pos (w : ℤ) : 0 < pow2 w := by
  rw [pow2_eq_zpow]; exact zpow_pos (by norm_num) w

lemma pow2_natCast (k : ℕ) : pow2 (k : ℤ) = ((2 ^ k : ℕ) : ℚ) := by
  rw [pow2, if_pos (by positivity), Int.toNat_natCast]

lemma pow2_add (v w : ℤ) : pow2 (v + w) = pow2 v * pow2 w := by
  simp [pow2_eq_zpow, zpow_add₀ (two_ne_zero' ℚ)]

lemma pow2_neg8 : pow2 (-8) = (256 : ℚ)⁻¹ := by
  rw [pow2_eq_zpow, show (-8 : ℤ) = -(8 : ℕ) by norm_num, zpow_neg, zpow_natCast]
  norm_num

lemma pow2_neg16 : pow2 (-16) = (65536 : ℚ)⁻¹ := by
  rw [pow2_eq_zpow, show (-16 : ℤ) = -(16 : ℕ) by norm_num, zpow_neg, zpow_natCast]
  norm_num

/-! ### Splitting the field-packing loops into 8-bit chunks -/

lemma fieldLoop_succ (b : List Bool) (base n : ℕ) :
    fieldLoop b base (n + 1) =
      fieldLoop b base n +
        (if b.getD (base + n) false then pow2 (7 - (n : ℤ)) else 0) := rfl

lemma tailSum_succ (b : List Bool) (base m n : ℕ) :
    tailSum b base m (n + 1) =
      tailSum b base m n +
        (if b.getD (base + m + n) false then pow2 (7 - ((m : ℤ) + n)) else 0) := rfl

lemma fieldLoop_nonneg (b : List Bool) (base : ℕ) : ∀ n, 0 ≤ fieldLoop b base n
  | 0 => le_refl 0
  | n + 1 => by
    rw [fieldLoop_succ]
    have h1 := fieldLoop_nonneg b base n
    have h2 : (0:ℚ) ≤ if b.getD (base + n) false then pow2 (7 - (n : ℤ)) else 0 := by
      split
      · exact (pow2_pos _).le
      · exact le_refl 0
    linarith

lemma fieldLoop_add (b : List Bool) (base m : ℕ) :
    ∀ n, fieldLoop b base (m + n) = fieldLoop b base m + tailSum b base m n
  | 0 => by simp [tailSum]
  | n + 1 => by
    rw [show m + (n + 1) = (m + n) + 1 by omega, fieldLoop_succ,
      fieldLoop_add b base m n, tailSum_succ,
      show base + (m + n) = base + m + n by omega]
    push_cast
    ring

lemma tailSum_add (b : List Bool) (base m n1 : ℕ) :
    ∀ n2, tailSum b base m (n1 + n2) =
      tailSum b base m n1 + tailSum b base (m + n1) n2
  | 0 => by simp [tailSum]
  | n + 1 => by
    rw [show n1 + (n + 1) = (n1 + n) + 1 by omega, tailSum_succ,
      tailSum_add b base m n1 n, tailSum_succ,
      show base + (m + n1) + n = base + m + (n1 + n) by omega]
    push_cast
    ring

lemma tailSum_oob (b : List Bool) (base m : ℕ) (h : b.length ≤ base + m) :
    ∀ n, tailSum b base m n = 0
  | 0 => rfl
  | n + 1 => by
    rw [tailSum_succ, tailSum_oob b base m h n,
      List.getD_eq_default _ _ (le_trans h (by omega))]
    simp

lemma specByteAux_succ (b : List Bool) (base n : ℕ) :
    specByteAux b base (n + 1) =
      specByteAux b base n + (if b.getD (base + n) false then 2 ^ (7 - n) else 0) := rfl

lemma specByteAux_bound (b : List Bool) (base : ℕ) :
    ∀ n, n ≤ 8 → specByteAux b base n + 2 ^ (8 - n) ≤ 256
  | 0, _ => by simp [specByteAux]
  | n + 1, h => by
    have ih := specByteAux_bound b base n (by omega)
    rw [specByteAux_succ, show 8 - (n + 1) = 7 - n by omega]
    have h1 : (2:ℕ) ^ (8 - n) = 2 ^ (7 - n) * 2 := by
      rw [show 8 - n = (7 - n) + 1 by omega, pow_succ]
    rw [h1] at ih
    have h2 : (if b.getD (base + n) false then 2 ^ (7 - n) else 0) ≤ 2 ^ (7 - n) := by
      split <;> omega
    omega

lemma specByte_lt (b : List Bool) (base : ℕ) : specByte b base < 256 := by
  have := specByteAux_bound b base 8 le_rfl
  have h0 : (2:ℕ) ^ (8 - 8) = 1 := by norm_num
  rw [specByte]
  omega

lemma fieldLoop_cast8 (b : List Bool) (base : ℕ) :
    ∀ n, n ≤ 8 → fieldLoop b base n = (specByteAux b base n : ℚ)
  | 0, _ => by simp [fieldLoop, specByteAux]
  | n + 1, h => by
    rw [fieldLoop_succ, fieldLoop_cast8 b base n (by omega), specByteAux_succ,
      show (7 : ℤ) - (n : ℤ) = ((7 - n : ℕ) : ℤ) by omega, pow2_natCast]
    push_cast [apply_ite (fun k : ℕ => (k : ℚ))]
    ring

lemma tailSum_eq (b : List Bool) (base m : ℕ) :
    ∀ n, n ≤ 8 →
      tailSum b base m n = (specByteAux b (base + m) n : ℚ) * pow2 (-(m : ℤ))
  | 0, _ => by simp [tailSum, specByteAux]
  | n + 1, h => by
    rw [tailSum_succ, tailSum_eq b base m n (by omega), specByteAux_succ,
      show (7 : ℤ) - ((m : ℤ) + n) = ((7 - n : ℕ) : ℤ) + (-(m : ℤ)) by omega,
      pow2_add, pow2_natCast]
    push_cast [apply_ite (fun k : ℕ => (k : ℚ))]
    split <;> ring

lemma tailSum8 (b : List Bool) (base m : ℕ) :
    tailSum b base m 8 = (specByte b (base + m) : ℚ) * pow2 (-(m : ℤ)) :=
  tailSum_eq b base m 8 le_rfl

lemma fieldLoop16 (b : List Bool) (base : ℕ) :
    fieldLoop b base 16 = fieldLoop b base 8 + tailSum b base 8 8 := by
  rw [show (16 : ℕ) = 8 + 8 from rfl, fieldLoop_add]

lemma tailSum16 (b : List Bool) (base m : ℕ) :
    tailSum b base m 16 = tailSum b base m 8 + tailSum b base (m + 8) 8 := by
  rw [show (16 : ℕ) = 8 + 8 from rfl, tailSum_add]

lemma fieldLoop24 (b : List Bool) (base : ℕ) :
    fieldLoop b base 24 =
      fieldLoop b base 8 + tailSum b base 8 8 + tailSum b base 16 8 := by
  rw [show (24 : ℕ) = 8 + 16 from rfl, fieldLoop_add, tailSum16]
  norm_num [add_assoc]

lemma tailSum24 (b : List Bool) (base m : ℕ) :
    tailSum b base m 24 =
      tailSum b base m 8 + tailSum b base (m + 8) 8 + tailSum b base (m + 16) 8 := by
  rw [show (24 : ℕ) = 8 + 16 from rfl, tailSum_add, tailSum16]
  norm_num [add_assoc]

lemma fieldLoop32 (b : List Bool) (base : ℕ) :
    fieldLoop b base 32 =
      fieldLoop b base 8 + tailSum b base 8 8 + tailSum b base 16 8 +
        tailSum b base 24 8 := by
  rw [show (32 : ℕ) = 8 + 24 from rfl, fieldLoop_add, tailSum24]
  norm_num [add_assoc]

lemma fieldLoop40 (b : List Bool) (base : ℕ) :
    fieldLoop b base 40 =
      fieldLoop b base 8 + tailSum b base 8 8 + tailSum b base 16 8 +
        tailSum b base 24 8 + tailSum b base 32 8 := by
  rw [show (40 : ℕ) = 8 + 32 from rfl, fieldLoop_add,
    show (32 : ℕ) = 8 + 24 from rfl, tailSum_add, tailSum24]
  norm_num [add_assoc]

/-! ### Closed forms of the five decode accumulators

The over-long loop bounds make the later accumulators pick up the *next*
field slices scaled by negative powers of two, and the two last loops read
past the end of the 40-element array (those reads contribute 0). -/

lemma RHint_eq (b : List Bool) : RHint b = (specByte b 0 : ℚ) :=
  fieldLoop_cast8 b 0 8 le_rfl

lemma RHdec_eq (b : List Bool) :
    RHdec b = (specByte b 8 : ℚ) + (specByte b 16 : ℚ) / 256 := by
  rw [RHdec, fieldLoop16, fieldLoop_cast8 b 8 8 le_rfl, tailSum8]
  norm_num [specByte, pow2_neg8, div_eq_mul_inv]

lemma Tint_eq (b : List Bool) :
    Tint b = (specByte b 16 : ℚ) + (specByte b 24 : ℚ) / 256 +
      (specByte b 32 : ℚ) / 65536 := by
  rw [Tint, fieldLoop24, fieldLoop_cast8 b 16 8 le_rfl, tailSum8, tailSum8]
  norm_num [specByte, pow2_neg8, pow2_neg16, div_eq_mul_inv]

lemma Tdec_eq (b : List Bool) (h : b.length ≤ 40) :
    Tdec b = (specByte b 24 : ℚ) + (specByte b 32 : ℚ) / 256 := by
  rw [Tdec, fieldLoop32, fieldLoop_cast8 b 24 8 le_rfl, tailSum8,
    tailSum_oob b 24 16 (by omega), tailSum_oob b 24 24 (by omega)]
  norm_num [specByte, pow2_neg8, div_eq_mul_inv]

lemma chksum_eq (b : List Bool) (h : b.length ≤ 40) :
    chksum b = (specByte b 32 : ℚ) := by
  rw [chksum, fieldLoop40, fieldLoop_cast8 b 32 8 le_rfl,
    tailSum_oob b 32 8 (by omega), tailSum_oob b 32 16 (by omega),
    tailSum_oob b 32 24 (by omega), tailSum_oob b 32 32 (by omega)]
  norm_num [specByte]

/-! ### Sign facts about the decoded values -/

lemma RHint_nonneg (b : List Bool) : 0 ≤ RHint b := fieldLoop_nonneg b 0 8
lemma RHdec_nonneg (b : List Bool) : 0 ≤ RHdec b := fieldLoop_nonneg b 8 16
lemma Tint_nonneg (b : List Bool) : 0 ≤ Tint b := fieldLoop_nonneg b 16 24
lemma Tdec_nonneg (b : List Bool) : 0 ≤ Tdec b := fieldLoop_nonneg b 24 32

lemma temperatureValue_ne_sentinels (s : TemperatureScale) (b : List Bool) :
    temperatureValue s b ≠ -1 ∧ temperatureValue s b ≠ -999 := by
  have h1 := Tint_nonneg b
  have h2 := Tdec_nonneg b
  have hc : 0 ≤ Tint b + Tdec b / 100 := by positivity
  cases s <;>
    exact ⟨by simp only [temperatureValue]; intro h; linarith,
           by simp only [temperatureValue]; intro h; linarith⟩

lemma humidityValue_ne_sentinels (b : List Bool) :
    humidityValue b ≠ -1 ∧ humidityValue b ≠ -999 := by
  have h1 := RHint_nonneg b
  have h2 := RHdec_nonneg b
  have hc : 0 ≤ humidityValue b := by rw [humidityValue]; positivity
  exact ⟨by intro h; linarith, by intro h; linarith⟩

/-! ### JavaScript `& 255` on the concrete sums -/

lemma toInt32_floor (q : ℚ) (h : 0 ≤ q) (hlt : ⌊q⌋ < 2 ^ 31) :
    toInt32 q = ⌊q⌋ := by
  have hnum : 0 ≤ q.num := Rat.num_nonneg.mpr h
  obtain ⟨m, hm⟩ := Int.eq_ofNat_of_zero_le hnum
  have htd : Int.tdiv q.num (q.den : ℤ) = q.num / (q.den : ℤ) := by
    rw [hm]; rfl
  have hfl : 0 ≤ ⌊q⌋ := Int.floor_nonneg.mpr h
  rw [toInt32]
  simp only [htd, ← Rat.floor_def]
  rw [Int.emod_eq_of_lt hfl (by omega), if_pos hlt]

lemma toInt32_add_fract (n : ℕ) (f : ℚ) (h0 : 0 ≤ f) (h1 : f < 1)
    (hn : n < 2 ^ 31) : toInt32 ((n : ℚ) + f) = (n : ℤ) := by
  have hfl : ⌊(n : ℚ) + f⌋ = (n : ℤ) := by
    rw [Int.floor_eq_iff]
    constructor
    · push_cast; linarith
    · push_cast; linarith
  rw [toInt32_floor _ (by positivity) (by rw [hfl]; exact_mod_cast hn), hfl]

lemma jsBitAnd255_add_fract (n : ℕ) (f : ℚ) (h0 : 0 ≤ f) (h1 : f < 1)
    (hn : n < 2 ^ 31) : jsBitAnd255 ((n : ℚ) + f) = (n : ℤ) % 256 := by
  rw [jsBitAnd255, toInt32_add_fract n f h0 h1 hn]

/-! ### Injectivity of the decode on 40-bit frames -/

lemma specByte_expand (b : List Bool) (base : ℕ) :
    specByte b base =
      0 + (if b.getD (base + 0) false then 128 else 0) +
        (if b.getD (base + 1) false then 64 else 0) +
        (if b.getD (base + 2) false then 32 else 0) +
        (if b.getD (base + 3) false then 16 else 0) +
        (if b.getD (base + 4) false then 8 else 0) +
        (if b.getD (base + 5) false then 4 else 0) +
        (if b.getD (base + 6) false then 2 else 0) +
        (if b.getD (base + 7) false then 1 else 0) := rfl

lemma specByte_inj (b b' : List Bool) (base base' : ℕ)
    (h : specByte b base = specByte b' base') :
    ∀ i, i < 8 → b.getD (base + i) false = b'.getD (base' + i) false := by
  rw [specByte_expand, specByte_expand] at h
  have key :
      b.getD (base + 0) false = b'.getD (base' + 0) false ∧
      b.getD (base + 1) false = b'.getD (base' + 1) false ∧
      b.getD (base + 2) false = b'.getD (base' + 2) false ∧
      b.getD (base + 3) false = b'.getD (base' + 3) false ∧
      b.getD (base + 4) false = b'.getD (base' + 4) false ∧
      b.getD (base + 5) false = b'.getD (base' + 5) false ∧
      b.getD (base + 6) false = b'.getD (base' + 6) false ∧
      b.getD (base + 7) false = b'.getD (base' + 7) false := by
    revert h
    generalize b.getD (base + 0) false = x0
    generalize b.getD (base + 1) false = x1
    generalize b.getD (base + 2) false = x2
    generalize b.getD (base + 3) false = x3
    generalize b.getD (base + 4) false = x4
    generalize b.getD (base + 5) false = x5
    generalize b.getD (base + 6) false = x6
    generalize b.getD (base + 7) false = x7
    generalize b'.getD (base' + 0) false = y0
    generalize b'.getD (base' + 1) false = y1
    generalize b'.getD (base' + 2) false = y2
    generalize b'.getD (base' + 3) false = y3
    generalize b'.getD (base' + 4) false = y4
    generalize b'.getD (base' + 5) false = y5
    generalize b'.getD (base' + 6) false = y6
    generalize b'.getD (base' + 7) false = y7
    intro h
    have e : ∀ (x : Bool) (c : ℕ), (if x then c else 0) = c * x.toNat := by
      intro x c; cases x <;> simp
    simp only [e] at h
    have t0 : x0.toNat ≤ 1 := by cases x0 <;> simp
    have t1 : x1.toNat ≤ 1 := by cases x1 <;> simp
    have t2 : x2.toNat ≤ 1 := by cases x2 <;> simp
    have t3 : x3.toNat ≤ 1 := by cases x3 <;> simp
    have t4 : x4.toNat ≤ 1 := by cases x4 <;> simp
    have t5 : x5.toNat ≤ 1 := by cases x5 <;> simp
    have t6 : x6.toNat ≤ 1 := by cases x6 <;> simp
    have t7 : x7.toNat ≤ 1 := by cases x7 <;> simp
    have u0 : y0.toNat ≤ 1 := by cases y0 <;> simp
    have u1 : y1.toNat ≤ 1 := by cases y1 <;> simp
    have u2 : y2.toNat ≤ 1 := by cases y2 <;> simp
    have u3 : y3.toNat ≤ 1 := by cases y3 <;> simp
    have u4 : y4.toNat ≤ 1 := by cases y4 <;> simp
    have u5 : y5.toNat ≤ 1 := by cases y5 <;> simp
    have u6 : y6.toNat ≤ 1 := by cases y6 <;> simp
    have u7 : y7.toNat ≤ 1 := by cases y7 <;> simp
    have inj : ∀ x y : Bool, x.toNat = y.toNat → x = y := by decide
    exact ⟨inj _ _ (by omega), inj _ _ (by omega), inj _ _ (by omega),
      inj _ _ (by omega), inj _ _ (by omega), inj _ _ (by omega),
      inj _ _ (by omega), inj _ _ (by omega)⟩
  intro i hi
  interval_cases i <;> tauto

lemma byte_pairs_eq (a1 a2 b1 b2 : ℕ) (ha2 : a2 < 256) (hb2 : b2 < 256)
    (h : (a1 : ℚ) + (a2 : ℚ) / 256 = (b1 : ℚ) + (b2 : ℚ) / 256) :
    a1 = b1 ∧ a2 = b2 := by
  have h2 : ((256 * a1 + a2 : ℕ) : ℚ) = ((256 * b1 + b2 : ℕ) : ℚ) := by
    push_cast
    linarith
  have h3 : 256 * a1 + a2 = 256 * b1 + b2 := Nat.cast_injective h2
  omega

lemma decode5_inj (b b' : List Bool) (hb : b.length = 40) (hb' : b'.length = 40)
    (h : decode5 b = decode5 b') : b = b' := by
  rw [decode5, decode5, Prod.mk.injEq, Prod.mk.injEq, Prod.mk.injEq,
    Prod.mk.injEq] at h
  obtain ⟨e0, e1, e2, e3, e4⟩ := h
  rw [RHint_eq, RHint_eq] at e0
  rw [RHdec_eq, RHdec_eq] at e1
  rw [Tdec_eq b (by omega), Tdec_eq b' (by omega)] at e3
  rw [chksum_eq b (by omega), chksum_eq b' (by omega)] at e4
  have s0 : specByte b 0 = specByte b' 0 := Nat.cast_injective e0
  have s32 : specByte b 32 = specByte b' 32 := Nat.cast_injective e4
  obtain ⟨s8, s16⟩ :=
    byte_pairs_eq _ _ _ _ (specByte_lt b 16) (specByte_lt b' 16) e1
  obtain ⟨s24, -⟩ :=
    byte_pairs_eq _ _ _ _ (specByte_lt b 32) (specByte_lt b' 32) e3
  have bits : ∀ j, j < 40 → b.getD j false = b'.getD j false := by
    intro j hj
    have hr : j % 8 < 8 := Nat.mod_lt _ (by omega)
    have hd : j = 8 * (j / 8) + j % 8 := (Nat.div_add_mod j 8).symm
    have hq : j / 8 < 5 := by omega
    interval_cases h5 : j / 8
    · have hj0 : j = 0 + j % 8 := by omega
      rw [hj0]; exact specByte_inj b b' 0 0 s0 _ hr
    · have hj0 : j = 8 + j % 8 := by omega
      rw [hj0]; exact specByte_inj b b' 8 8 s8 _ hr
    · have hj0 : j = 16 + j % 8 := by omega
      rw [hj0]; exact specByte_inj b b' 16 16 s16 _ hr
    · have hj0 : j = 24 + j % 8 := by omega
      rw [hj0]; exact specByte_inj b b' 24 24 s24 _ hr
    · have hj0 : j = 32 + j % 8 := by omega
      rw [hj0]; exact specByte_inj b b' 32 32 s32 _ hr
  apply List.ext_getElem (by omega)
  intro n h1 h2
  have := bits n (by omega)
  rwa [List.getD_eq_getElem b false h1, List.getD_eq_getElem b' false h2] at this

/-! ### Trace-level facts about the busy-wait loops and the sampler -/

lemma skipWhile_low_none : ∀ (fuel k : ℕ),
    skipWhile (fun _ => false) false k fuel = none
  | 0, _ => rfl
  | fuel + 1, k => by
    simp [skipWhile, skipWhile_low_none fuel (k + 1)]

lemma skipWhile_some_transition (sig : ℕ → Bool) (level : Bool) :
    ∀ (fuel k : ℕ) (r : ℕ × List PinOp),
      skipWhile sig level k fuel = some r → ∃ j, k ≤ j ∧ sig j ≠ level
  | 0, _, _, h => by simp [skipWhile] at h
  | fuel + 1, k, r, h => by
    rw [skipWhile] at h
    by_cases hk : sig k = level
    · rw [if_pos hk] at h
      cases h1 : skipWhile sig level (k + 1) fuel with
      | none => rw [h1] at h; simp at h
      | some r' =>
        obtain ⟨j, hj1, hj2⟩ := skipWhile_some_transition sig level fuel (k + 1) r' h1
        exact ⟨j, by omega, hj2⟩
    · exact ⟨k, le_refl k, hk⟩

lemma collectBits_length (sig : ℕ → Bool) :
    ∀ (c k fuel : ℕ) (z : ℕ × List PinOp × List Bool),
      collectBits sig k c fuel = some z → z.2.2.length = c
  | 0, k, fuel, z, h => by
    rw [collectBits] at h
    cases h
    rfl
  | c + 1, k, fuel, z, h => by
    rw [collectBits] at h
    cases h1 : skipWhile sig true k fuel with
    | none => rw [h1] at h; simp at h
    | some a =>
      rw [h1] at h
      simp only [Option.some_bind] at h
      cases h2 : skipWhile sig false a.1 fuel with
      | none => rw [h2] at h; simp at h
      | some bb =>
        rw [h2] at h
        simp only [Option.some_bind] at h
        cases h3 : collectBits sig (bb.1 + 1) c fuel with
        | none => rw [h3] at h; simp at h
        | some z' =>
          rw [h3] at h
          simp only [Option.map_some'] at h
          have ih := collectBits_length sig c (bb.1 + 1) fuel z' h3
          cases h
          simp [ih]

/-! ### Claim theorems -/

/-- C1: the claim states that each of the five decoded fields equals the
big-endian value of its own 8-bit slice.  It fails on the code: for the
frame whose only set bit is bit 16, the humidity-fraction accumulator
(loop bound `i < 16`, weight `2 ** (7 - i)`) picks up bit 16 with weight
2^(-1) and yields 1/2, while the big-endian value of slice [8..16) is 0. -/
theorem C1_field_not_slice_value :
    RHdec frame16 = 1 / 2 ∧ specByte frame16 8 = 0 ∧
      RHdec frame16 ≠ (specByte frame16 8 : ℚ) := by
  have s8 : specByte frame16 8 = 0 := by decide
  have s16 : specByte frame16 16 = 128 := by decide
  have h1 : RHdec frame16 = 1 / 2 := by
    rw [RHdec_eq, s8, s16]
    norm_num
  refine ⟨h1, s8, ?_⟩
  rw [h1, s8]
  norm_num

/-- C2: the claim states that decoding succeeds iff the checksum field
equals the byte-field sum mod 256.  It fails on the code: `frame1624`
satisfies the spec's checksum invariant (first conjunct), yet the code's
acceptance test is false, because the fractional carry picked up by the
over-long loops makes the compared sum 257 whose low byte is 1 ≠ 0. -/
theorem C2_spec_valid_frame_rejected :
    specByte frame1624 32 =
      (specByte frame1624 0 + specByte frame1624 8 + specByte frame1624 16 +
        specByte frame1624 24) % 256 ∧
    checksumOk frame1624 = false := by
  constructor
  · decide
  · have s0 : specByte frame1624 0 = 0 := by decide
    have s8 : specByte frame1624 8 = 0 := by decide
    have s16 : specByte frame1624 16 = 128 := by decide
    have s24 : specByte frame1624 24 = 128 := by decide
    have s32 : specByte frame1624 32 = 0 := by decide
    have hlen : frame1624.length ≤ 40 := by decide
    have hsum : RHint frame1624 + RHdec frame1624 + Tint frame1624 + Tdec frame1624 =
        ((257 : ℕ) : ℚ) + 0 := by
      rw [RHint_eq, RHdec_eq, Tint_eq, Tdec_eq _ hlen, s0, s8, s16, s24, s32]
      norm_num
    simp only [checksumOk]
    rw [decide_eq_false_iff_not]
    intro hcontra
    rw [hsum, jsBitAnd255_add_fract 257 0 (le_refl 0) (by norm_num) (by norm_num),
      chksum_eq _ hlen, s32] at hcontra
    norm_num at hcontra

/-- C3: the claim states that every index used by the five field-packing
loops is within the 40-element bit array.  It fails on the code: the
checksum loop runs `i` up to 39 with index `i + 32`, so indices 40..71 are
accessed; in a total embedding, `get? 40` on the 40-element frame is
`none`. -/
theorem C3_decode_reads_out_of_bounds :
    40 ∈ decodeAccesses ∧ 71 ∈ decodeAccesses ∧
      (List.replicate 40 false : List Bool).get? 40 = none := by
  decide

/-- C4: the claim states that a successfully validated frame converts by
the spec's pure formulas.  It fails on the code: `frame739` passes the
code's checksum test, but the Celsius value returned is
1/65536 + (1/256)/100 (fractional garbage from the over-long loops), not
`temperatureInteger + temperatureFraction / 100 = 0`. -/
theorem C4_accepted_frame_wrong_value :
    checksumOk frame739 = true ∧
      temperatureValue TemperatureScale.Celsius frame739 ≠
        (specByte frame739 16 : ℚ) + (specByte frame739 24 : ℚ) / 100 := by
  have s0 : specByte frame739 0 = 1 := by decide
  have s8 : specByte frame739 8 = 0 := by decide
  have s16 : specByte frame739 16 = 0 := by decide
  have s24 : specByte frame739 24 = 0 := by decide
  have s32 : specByte frame739 32 = 1 := by decide
  have hlen : frame739.length ≤ 40 := by decide
  constructor
  · have hsum : RHint frame739 + RHdec frame739 + Tint frame739 + Tdec frame739 =
        ((1 : ℕ) : ℚ) + (1 / 65536 + 1 / 256) := by
      rw [RHint_eq, RHdec_eq, Tint_eq, Tdec_eq _ hlen, s0, s8, s16, s24, s32]
      norm_num
    simp only [checksumOk]
    rw [decide_eq_true_eq, hsum,
      jsBitAnd255_add_fract 1 _ (by norm_num) (by norm_num) (by norm_num),
      chksum_eq _ hlen, s32]
    norm_num
  · simp only [temperatureValue]
    rw [Tint_eq, Tdec_eq _ hlen, s16, s24, s32]
    norm_num

/-- C10 counterexample: the claim states that reversing *every* simulated
40-bit sequence changes the decoded byte values.  The all-zero frame is a
palindrome: its reversal is itself, so the decoded values are unchanged. -/
theorem C10_reverse_palindrome_unchanged :
    decode5 ((List.replicate 40 false).reverse) = decode5 (List.replicate 40 false) :=
  congrArg decode5 (by decide)

/-- C10 (amended): for every 40-bit sequence that differs from its own
reversal, reversing the bit order changes the decoded values. -/
theorem C10_reverse_changes_decode (bs : List Bool) (h40 : bs.length = 40)
    (hne : bs.reverse ≠ bs) : decode5 bs.reverse ≠ decode5 bs :=
  fun heq => hne (decode5_inj _ _ (by simpa using h40) h40 heq)

/-- C10 witness: the amended theorem applied to the frame with only bit 0
set, which is not a palindrome. -/
theorem C10_reverse_changes_decode_witness :
    decode5 (true :: List.replicate 39 false).reverse ≠
      decode5 (true :: List.replicate 39 false) :=
  C10_reverse_changes_decode _ (by decide) (by decide)

/-- C5: if the line reads high at the sample taken after the 40 µs
post-release wait (read index 1), both reads return -1 immediately; the
whole pin-operation log is the fixed six-operation start prefix, whose
only reads are the discard read (index 0) and the acknowledge check
(index 1) — no data-bit sampling happens. -/
theorem C5_no_response_early_return (s : TemperatureScale) (sig : ℕ → Bool)
    (fuel : ℕ) (h : sig 1 = true) :
    temperature s sig fuel = some ⟨startLog sig, [], -1⟩ ∧
    relativeHumidity sig fuel = some ⟨startLog sig, [], -1⟩ ∧
    (startLog sig).all (fun op =>
      match op with
      | PinOp.readPin k _ => decide (k < 2)
      | _ => true) = true := by
  refine ⟨?_, ?_, ?_⟩
  · rw [temperature, if_pos h]
  · rw [relativeHumidity, if_pos h]
  · rfl

/-- C5 witness: the constantly-high line, fuel 0. -/
theorem C5_no_response_early_return_witness :
    temperature TemperatureScale.Celsius (fun _ => true) 0 =
      some ⟨startLog (fun _ => true), [], -1⟩ ∧
    relativeHumidity (fun _ => true) 0 = some ⟨startLog (fun _ => true), [], -1⟩ ∧
    (startLog (fun _ => true)).all (fun op =>
      match op with
      | PinOp.readPin k _ => decide (k < 2)
      | _ => true) = true :=
  C5_no_response_early_return TemperatureScale.Celsius (fun _ => true) 0 rfl

/-- C8: the acknowledge and per-bit busy-waits are unbounded.  First: on
the trace whose line stays constantly low (which passes the 40 µs check),
the read never returns — it is `none` for every fuel bound.  Second: a
busy-wait that does terminate did observe the awaited level transition:
some read at index ≥ its start saw the opposite level. -/
theorem C8_busy_waits_unbounded :
    (∀ (s : TemperatureScale) (fuel : ℕ),
      temperature s (fun _ => false) fuel = none) ∧
    (∀ (sig : ℕ → Bool) (level : Bool) (k fuel : ℕ),
      (skipWhile sig level k fuel).elim True
        (fun _ => ∃ j, k ≤ j ∧ sig j ≠ level)) := by
  constructor
  · intro s fuel
    rw [temperature, if_neg (by simp), skipWhile_low_none]
    rfl
  · intro sig level k fuel
    cases h : skipWhile sig level k fuel with
    | none => trivial
    | some r => exact skipWhile_some_transition sig level fuel k r h

/-- C9: the bit sampler runs exactly 40 iterations — whenever it returns,
the frame has exactly 40 bits — and each iteration is the fixed step
sequence: busy-wait while high, busy-wait while low, a fixed 28 µs wait,
then a single read recording the bit (high ⇒ 1), the sampled bit being
consed in front of the later ones, so bit 0 of the frame is the first bit
received. -/
theorem C9_sampler_structure (sig : ℕ → Bool) (k fuel : ℕ) :
    ((collectBits sig k 40 fuel).elim True (fun z => z.2.2.length = 40)) ∧
    (∀ c, collectBits sig k (c + 1) fuel =
      (skipWhile sig true k fuel).bind fun a =>
        (skipWhile sig false a.1 fuel).bind fun bb =>
          (collectBits sig (bb.1 + 1) c fuel).map fun z =>
            (z.1,
             a.2 ++ bb.2 ++
               ([PinOp.waitUs 28, PinOp.readPin bb.1 (sig bb.1)] ++ z.2.1),
             sig bb.1 :: z.2.2)) := by
  constructor
  · cases h : collectBits sig k 40 fuel with
    | none => trivial
    | some z => exact collectBits_length sig 40 k fuel z h
  · intro c
    rfl

/-- C6: the requested scale selects only the final unit conversion.  For
any fixed trace and fuel, runs with different scales terminate alike,
perform exactly the same pin operations, sample the same bits, and make
the same -1 / -999 sentinel decisions (a successful conversion is never
-1 or -999, since the decoded accumulators are nonnegative). -/
theorem C6_scale_noninterference (s1 s2 : TemperatureScale) (sig : ℕ → Bool)
    (fuel : ℕ) :
    (temperature s1 sig fuel).isSome = (temperature s2 sig fuel).isSome ∧
    (temperature s1 sig fuel).map Run.log = (temperature s2 sig fuel).map Run.log ∧
    (temperature s1 sig fuel).map Run.bits =
      (temperature s2 sig fuel).map Run.bits ∧
    (temperature s1 sig fuel).map (fun r => decide (r.ret = -1)) =
      (temperature s2 sig fuel).map (fun r => decide (r.ret = -1)) ∧
    (temperature s1 sig fuel).map (fun r => decide (r.ret = -999)) =
      (temperature s2 sig fuel).map (fun r => decide (r.ret = -999)) := by
  by_cases h : sig 1 = true
  · simp [temperature, h]
  · simp only [temperature, if_neg h]
    cases h1 : skipWhile sig false 2 fuel with
    | none => simp
    | some a =>
      simp only [Option.some_bind]
      cases h2 : skipWhile sig true a.1 fuel with
      | none => simp
      | some bb =>
        simp only [Option.some_bind]
        cases h3 : collectBits sig bb.1 40 fuel with
        | none => simp
        | some z =>
          simp only [Option.map_some', Option.isSome_some]
          refine ⟨by trivial, by trivial, by trivial, ?_, ?_⟩
          · by_cases hc : checksumOk z.2.2 = true
            · simp only [if_pos hc,
                decide_eq_false ((temperatureValue_ne_sentinels s1 z.2.2).1),
                decide_eq_false ((temperatureValue_ne_sentinels s2 z.2.2).1)]
            · simp [hc]
          · by_cases hc : checksumOk z.2.2 = true
            · simp only [if_pos hc,
                decide_eq_false ((temperatureValue_ne_sentinels s1 z.2.2).2),
                decide_eq_false ((temperatureValue_ne_sentinels s2 z.2.2).2)]
            · simp [hc]

/-- C7: on any identical trace, the temperature read (Celsius) and the
humidity read terminate alike, perform the same pin operations, sample the
same bits, and agree on the -1 / -999 sentinel decisions; when a value is
produced, each function's return is determined by its own decoded fields
of the shared bits (temperature from Tint/Tdec, humidity from
RHint/RHdec). -/
theorem C7_temperature_humidity_agree (sig : ℕ → Bool) (fuel : ℕ) :
    (temperature TemperatureScale.Celsius sig fuel).isSome =
      (relativeHumidity sig fuel).isSome ∧
    (temperature TemperatureScale.Celsius sig fuel).map Run.log =
      (relativeHumidity sig fuel).map Run.log ∧
    (temperature TemperatureScale.Celsius sig fuel).map Run.bits =
      (relativeHumidity sig fuel).map Run.bits ∧
    (temperature TemperatureScale.Celsius sig fuel).map
        (fun r => decide (r.ret = -1)) =
      (relativeHumidity sig fuel).map (fun r => decide (r.ret = -1)) ∧
    (temperature TemperatureScale.Celsius sig fuel).map
        (fun r => decide (r.ret = -999)) =
      (relativeHumidity sig fuel).map (fun r => decide (r.ret = -999)) ∧
    (temperature TemperatureScale.Celsius sig fuel).map (fun r => r.ret) =
      (temperature TemperatureScale.Celsius sig fuel).map (fun r =>
        if r.ret = -1 then (-1 : ℚ)
        else if checksumOk r.bits then
          temperatureValue TemperatureScale.Celsius r.bits
        else -999) ∧
    (relativeHumidity sig fuel).map (fun r => r.ret) =
      (relativeHumidity sig fuel).map (fun r =>
        if r.ret = -1 then (-1 : ℚ)
        else if checksumOk r.bits then humidityValue r.bits else -999) := by
  by_cases h : sig 1 = true
  · simp [temperature, relativeHumidity, h]
  · simp only [temperature, relativeHumidity, if_neg h]
    cases h1 : skipWhile sig false 2 fuel with
    | none => simp
    | some a =>
      simp only [Option.some_bind]
      cases h2 : skipWhile sig true a.1 fuel with
      | none => simp
      | some bb =>
        simp only [Option.some_bind]
        cases h3 : collectBits sig bb.1 40 fuel with
        | none => simp
        | some z =>
          simp only [Option.map_some', Option.isSome_some]
          by_cases hc : checksumOk z.2.2 = true
          · refine ⟨by trivial, by trivial, by trivial, ?_, ?_, ?_, ?_⟩
            · simp only [if_pos hc,
                decide_eq_false
                  ((temperatureValue_ne_sentinels TemperatureScale.Celsius z.2.2).1),
                decide_eq_false ((humidityValue_ne_sentinels z.2.2).1)]
            · simp only [if_pos hc,
                decide_eq_false
                  ((temperatureValue_ne_sentinels TemperatureScale.Celsius z.2.2).2),
                decide_eq_false ((humidityValue_ne_sentinels z.2.2).2)]
            · simp only [if_pos hc,
                if_neg
                  ((temperatureValue_ne_sentinels TemperatureScale.Celsius z.2.2).1)]
            · simp only [if_pos hc,
                if_neg (humidityValue_ne_sentinels z.2.2).1]
          · refine ⟨by trivial, by trivial, by trivial, by simp [hc], by simp [hc], ?_, ?_⟩
            · simp only [if_neg hc]
              norm_num
            · simp only [if_neg hc]
              norm_num

/-- C8 witness: on the constantly-low line the temperature read with fuel 5
does not return. -/
theorem C8_busy_waits_unbounded_witness :
    temperature TemperatureScale.Celsius (fun _ => false) 5 = none :=
  C8_busy_waits_unbounded.1 TemperatureScale.Celsius 5

/-- C9 witness: the sampler on the alternating line (high at even read
indices) with fuel 2, instantiating the length conjunct. -/
theorem C9_sampler_structure_witness :
    ((collectBits (fun k => decide (k % 2 = 0)) 0 40 2).elim True
      (fun z => z.2.2.length = 40)) :=
  (C9_sampler_structure (fun k => decide (k % 2 = 0)) 0 2).1
